import Mathlib

/-!
Verification development for the Instagram export scanner.

The extraction pipeline of the repository is shallowly embedded here:
characters are modelled as Unicode code points (`Nat`), strings as
`List Nat`.  JavaScript's `localeCompare` comparator is modelled as
lexicographic comparison of code points, and `String.prototype.trim` /
the regex class `\s` are modelled by the whitespace set `isJsWs` below.
-/

/-- A piece of text: the list of Unicode code points of a JS string. -/
abbrev Txt := List Nat

/-- Converts a Lean string literal to its code-point model. -/
def strToL (s : String) : Txt := s.data.map Char.toNat

/-- Model of the whitespace characters removed by `trim` and matched by
the regex class in the source (tab, LF, VT, FF, CR, space, NBSP, line and
paragraph separators, BOM). -/
def isJsWs (c : Nat) : Bool :=
  c == 9 || c == 10 || c == 11 || c == 12 || c == 13 || c == 32 ||
  c == 160 || c == 8232 || c == 8233 || c == 65279

/-- ASCII fragment of `String.prototype.toLowerCase`, per code point. -/
def lowerChar (c : Nat) : Nat := if 65 ≤ c ∧ c ≤ 90 then c + 32 else c

/-- `toLowerCase` over a whole string. -/
def toLowerL (l : Txt) : Txt := l.map lowerChar

/-- Left part of `trim`. -/
def trimL (l : Txt) : Txt := l.dropWhile isJsWs

/-- Right part of `trim`. -/
def trimR (l : Txt) : Txt := (l.reverse.dropWhile isJsWs).reverse

/-- `String.prototype.trim`. -/
def jsTrim (l : Txt) : Txt := trimR (trimL l)

/-- `replace(/^@/, '')`: removes one leading `@` (code point 64). -/
def stripAt (l : Txt) : Txt :=
  match l with
  | [] => []
  | c :: rest => if c = 64 then rest else c :: rest

/-- `normalizeUsername` from `src/lib/instagramExport.ts`:
`username.trim().replace(/^@/, '').toLowerCase()`. -/
def normalizeUsername (u : Txt) : Txt := toLowerL (stripAt (jsTrim u))

/-- The regex character class `[a-zA-Z0-9._]`. -/
def identChar (c : Nat) : Bool :=
  (97 ≤ c && c ≤ 122) || (65 ≤ c && c ≤ 90) || (48 ≤ c && c ≤ 57) ||
  c == 46 || c == 95

/-- The lowercased identifier class `[a-z0-9._]`. -/
def lowerIdentChar (c : Nat) : Bool :=
  (97 ≤ c && c ≤ 122) || (48 ≤ c && c ≤ 57) || c == 46 || c == 95

/-- Full match against `^[a-zA-Z0-9._]{1,30}$`. -/
def validIdent (l : Txt) : Bool := !l.isEmpty && l.length ≤ 30 && l.all identChar

/-- Model of the `localeCompare`-based comparator: lexicographic
less-or-equal on code points. -/
def lexLe : Txt → Txt → Bool
  | [], _ => true
  | _ :: _, [] => false
  | a :: as, b :: bs => if a < b then true else if b < a then false else lexLe as bs

/-- The comparator as a relation, for the sorting lemmas. -/
def lexLeP (a b : Txt) : Prop := lexLe a b = true

instance : DecidableRel lexLeP := fun _ _ => inferInstanceAs (Decidable (_ = true))

/-- `Array.prototype.sort((a, b) => a.localeCompare(b))` under the model. -/
def sortLex (l : List Txt) : List Txt := l.insertionSort lexLeP

/-- `Set.prototype.add`: appends iff not yet present (JS sets preserve
insertion order). -/
def addUnique (s : List Txt) (u : Txt) : List Txt := if u ∈ s then s else s ++ [u]

/-- Adding a whole list of values to a JS set. -/
def addAll (s : List Txt) (us : List Txt) : List Txt := us.foldl addUnique s

/-- One iteration of the set-building loop of `uniqueSorted`: normalize
the raw token and insert it when non-empty. -/
def dedupeStep (s : List Txt) (u : Txt) : List Txt :=
  let nu := normalizeUsername u
  if nu.isEmpty then s else addUnique s nu

/-- The set-building loop of `uniqueSorted`. -/
def dedupeNormalized (usernames : List Txt) : List Txt :=
  usernames.foldl dedupeStep []

/-- `uniqueSorted` from `src/lib/instagramExport.ts` (the copy in
`instagramExportHtml.ts` is textually identical). -/
def uniqueSorted (usernames : List Txt) : List Txt := sortLex (dedupeNormalized usernames)

example : normalizeUsername (strToL "@Foo") = strToL "foo" := by decide
example : normalizeUsername (strToL " foo ") = strToL "foo" := by decide
example : uniqueSorted [strToL "@Bob", strToL "alice", strToL "bob"]
    = [strToL "alice", strToL "bob"] := by decide

/-!  Structured data: the decoded result of `JSON.parse`, modelled as an
algebraic value.  Object fields keep JS insertion order (the order
`Object.entries` reports for the string keys of interest). -/

/-- A decoded JSON value. -/
inductive Json where
  | null
  | bool (b : Bool)
  | num (n : Int)
  | str (s : Txt)
  | arr (elems : List Json)
  | obj (fields : List (Txt × Json))

/-- JS property read on an object field list: first binding wins (JS
objects have unique keys, so this agrees with property access). -/
def lookupField : List (Txt × Json) → Txt → Option Json
  | [], _ => none
  | (k, v) :: rest, key => if k = key then some v else lookupField rest key

/-- `Array.isArray` applied to the result of a property read. -/
def asArray : Option Json → Option (List Json)
  | some (.arr es) => some es
  | _ => none

/-- `isRecord` from the source: `typeof value === 'object' && value !== null`.
Note that JS arrays satisfy this test. -/
def isRecordJ : Json → Bool
  | .obj _ => true
  | .arr _ => true
  | _ => false

/-- Property access `value[key]` as used by the source after an `isRecord`
check; on an array the string keys of interest are absent. -/
def getField : Json → Txt → Option Json
  | .obj fields, key => lookupField fields key
  | _, _ => none

/-!  `extractUsernameFromHref`: two anchored-nowhere regex searches.  A JS
`match` finds the leftmost position where the literal part occurs followed
by at least one `[a-zA-Z0-9._]` character; the capture is the greedy run of
such characters, at most 30 long. -/

/-- The capture `([a-zA-Z0-9._]{1,30})`: greedy run of class characters,
truncated at 30. -/
def takeIdentRun (l : Txt) : Txt := (l.takeWhile identChar).take 30

/-- Strips a literal from the front of the text, if present. -/
def dropLit (lit l : Txt) : Option Txt :=
  if lit.isPrefixOf l then some (l.drop lit.length) else none

/-- Leftmost match of `lit` followed by a non-empty identifier run; returns
the capture.  Mirrors `href.match(/lit([a-zA-Z0-9._]{1,30})/)?.[1]`. -/
def findCapture (lit : Txt) : Txt → Option Txt
  | [] => none
  | c :: t =>
    match dropLit lit (c :: t) with
    | some r =>
      let run := takeIdentRun r
      if run.isEmpty then findCapture lit t else some run
    | none => findCapture lit t

/-- `extractUsernameFromHref` from `src/lib/instagramExport.ts`: prefer the
`/_u/` form, then the plain profile-path form. -/
def extractUsernameFromHref (href : Txt) : Option Txt :=
  match findCapture (strToL "instagram.com/_u/") href with
  | some u => some u
  | none => findCapture (strToL "instagram.com/") href

/-- The truthy `value` field of one `string_list_data` record
(`toStringOrNull(item['value'])` followed by a truthiness test). -/
def entryValue (item : Json) : Option Txt :=
  match getField item (strToL "value") with
  | some (.str s) => if s.isEmpty then none else some s
  | _ => none

/-- First record of `string_list_data` with a truthy `value`. -/
def firstValueIn : List Json → Option Txt
  | [] => none
  | item :: rest =>
    match entryValue item with
    | some v => some v
    | none => firstValueIn rest

/-- The truthy `href` field of one record. -/
def entryHref (item : Json) : Option Txt :=
  match getField item (strToL "href") with
  | some (.str s) => if s.isEmpty then none else some s
  | _ => none

/-- First record whose `href` yields a username via
`extractUsernameFromHref`; records whose extraction fails are skipped. -/
def firstHrefIn : List Json → Option Txt
  | [] => none
  | item :: rest =>
    match entryHref item with
    | some h =>
      (match extractUsernameFromHref h with
       | some u => some u
       | none => firstHrefIn rest)
    | none => firstHrefIn rest

/-- The truthy `title` field of the entry. -/
def titleJ (entry : Json) : Option Txt :=
  match getField entry (strToL "title") with
  | some (.str s) => if s.isEmpty then none else some s
  | _ => none

/-- `extractUsernameFromRelationshipEntry` from
`src/lib/instagramExport.ts`.  Note the source returns `null` whenever
`string_list_data` is not an array, before the `title` fallback runs. -/
def extractUsernameFromRelationshipEntry (entry : Json) : Option Txt :=
  if !isRecordJ entry then none
  else
    match asArray (getField entry (strToL "string_list_data")) with
    | some sld =>
      (match firstValueIn sld with
       | some v => some v
       | none =>
         match titleJ entry with
         | some t => some t
         | none => firstHrefIn sld)
    | none => none

/-- `.map(extractUsernameFromRelationshipEntry).filter((u) => Boolean(u))`:
drop misses and (defensively) empty strings. -/
def collectUsernames (entries : List Json) : List Txt :=
  (entries.map extractUsernameFromRelationshipEntry).filterMap
    (fun o =>
      match o with
      | some u => if u.isEmpty then none else some u
      | none => none)

/-- Detected relationship category. -/
inductive Kind where
  | followers
  | following
  | unknown
deriving DecidableEq

/-- The parser warnings; each constructor stands for one of the fixed
message templates of the source, carrying its interpolated parts. -/
inductive PWarn where
  /-- 'Se detectó followers, pero no se pudieron extraer usernames.' -/
  | followersEmpty
  /-- 'Se detectó following, pero no se pudieron extraer usernames.' -/
  | followingEmpty
  /-- 'Formato no estándar: se extrajo desde "key".' -/
  | nonStandardKey (key : Txt)
  /-- 'El JSON es un array, pero no se pudieron extraer usernames.' -/
  | arrayEmpty
  /-- 'Formato de JSON no reconocido para seguidores/seguidos.' -/
  | unrecognized
  /-- 'Se importó un archivo HTML (export de Instagram en formato HTML).' -/
  | htmlImported
  /-- 'No se pudieron extraer usernames desde el HTML. ...' -/
  | htmlEmpty
deriving DecidableEq

/-- `InstagramExportParseResult`. -/
structure ParseResult where
  kind : Kind
  usernames : List Txt
  warnings : List PWarn
deriving DecidableEq

/-- One iteration of the fallback scan over `Object.entries`: a field
contributes iff its key starts with `relationships_`, its value is an
array, and extraction yields at least one username. -/
def tryRelField (k : Txt) (v : Json) : Option (Txt × List Txt) :=
  if (strToL "relationships_").isPrefixOf k then
    match v with
    | .arr entries =>
      if (collectUsernames entries).isEmpty then none
      else some (k, collectUsernames entries)
    | _ => none
  else none

/-- The fallback scan over `Object.entries` for array-valued fields whose
key starts with `relationships_`; first field yielding at least one
username wins.  The iteration order is the object's field order. -/
def scanRelKeys : List (Txt × Json) → Option (Txt × List Txt)
  | [] => none
  | (k, v) :: rest =>
    match tryRelField k v with
    | some r => some r
    | none => scanRelKeys rest

/-- `parseInstagramRelationshipJson` from `src/lib/instagramExport.ts`. -/
def parseInstagramRelationshipJson : Json → ParseResult
  | .obj fields =>
    (match asArray (lookupField fields (strToL "relationships_followers")) with
     | some entries =>
       let usernames := collectUsernames entries
       { kind := .followers, usernames := uniqueSorted usernames,
         warnings := if usernames.isEmpty then [.followersEmpty] else [] }
     | none =>
       match asArray (lookupField fields (strToL "relationships_following")) with
       | some entries =>
         let usernames := collectUsernames entries
         { kind := .following, usernames := uniqueSorted usernames,
           warnings := if usernames.isEmpty then [.followingEmpty] else [] }
       | none =>
         match scanRelKeys fields with
         | some (k, usernames) =>
           { kind := .unknown, usernames := uniqueSorted usernames,
             warnings := [.nonStandardKey k] }
         | none => { kind := .unknown, usernames := [], warnings := [.unrecognized] })
  | .arr entries =>
    let usernames := collectUsernames entries
    { kind := .unknown, usernames := uniqueSorted usernames,
      warnings := if usernames.isEmpty then [.arrayEmpty] else [] }
  | _ => { kind := .unknown, usernames := [], warnings := [.unrecognized] }

example :
    parseInstagramRelationshipJson
      (.obj [(strToL "relationships_followers",
              .arr [.obj [(strToL "string_list_data",
                           .arr [.obj [(strToL "value", .str (strToL "Alice"))]])]])])
      = { kind := .followers, usernames := [strToL "alice"], warnings := [] } := by decide

example :
    extractUsernameFromRelationshipEntry
      (.obj [(strToL "string_list_data",
              .arr [.obj [(strToL "href", .str (strToL "https://www.instagram.com/_u/carol/"))]])])
      = some (strToL "carol") := by decide

/-!  The HTML parser of `src/lib/instagramExportHtml.ts`: three global regex
passes over the raw text plus an optional structural pass over anchors.
`matchAll` semantics: repeatedly find the leftmost match and resume after
its end; a failed attempt advances one character. -/

/-- One attempt of `/@([a-zA-Z0-9._]{1,30})/` at the current position:
returns the capture and the remainder after the match. -/
def matchAtAt : Txt → Option (Txt × Txt)
  | c :: t =>
    if c = 64 then
      let run := takeIdentRun t
      if run.isEmpty then none else some (run, t.drop run.length)
    else none
  | [] => none

/-- One attempt of
`/https?:\/\/(?:www\.)?instagram\.com\/([a-zA-Z0-9._]{1,30})\/?/` at the
current position. -/
def matchUrlAt (l : Txt) : Option (Txt × Txt) :=
  match dropLit (strToL "http") l with
  | none => none
  | some l1 =>
    match
      (match dropLit (strToL "s://") l1 with
       | some r => some r
       | none => dropLit (strToL "://") l1) with
    | none => none
    | some l2 =>
      match
        (match dropLit (strToL "www.instagram.com/") l2 with
         | some r => some r
         | none => dropLit (strToL "instagram.com/") l2) with
      | none => none
      | some l3 =>
        let run := takeIdentRun l3
        if run.isEmpty then none
        else
          let rest := l3.drop run.length
          some (run, match rest with | 47 :: r => r | _ => rest)

/-- One attempt of `/"value"\s*:\s*"([^"]{1,64})"/` at the current
position.  The capture is the run up to the next quote; if it is longer
than 64 characters every backtracking choice fails, so there is no match
at this position. -/
def matchValueAt (l : Txt) : Option (Txt × Txt) :=
  match dropLit (strToL "\"value\"") l with
  | none => none
  | some r1 =>
    match r1.dropWhile isJsWs with
    | 58 :: r3 =>
      (match r3.dropWhile isJsWs with
       | 34 :: r5 =>
         let run := r5.takeWhile (fun c => !(c == 34))
         if run.isEmpty || 64 < run.length then none
         else
           match r5.drop run.length with
           | 34 :: rest => some (run, rest)
           | _ => none
       | _ => none)
    | _ => none

/-- Global scan (`matchAll`) driven by one positional matcher.  The fuel is
the text length: every match consumes at least one character, so the scan
always runs to the end of the text. -/
def scanWith (m : Txt → Option (Txt × Txt)) : Nat → Txt → List Txt
  | 0, _ => []
  | _ + 1, [] => []
  | fuel + 1, c :: t =>
    match m (c :: t) with
    | some (cap, rest) => cap :: scanWith m fuel rest
    | none => scanWith m fuel t

/-- The anchor-text pattern `/@?([a-zA-Z0-9._]{1,30})/` (leftmost match,
optional `@`). -/
def matchAtOptional : Txt → Option Txt
  | [] => none
  | c :: t =>
    if c = 64 then
      let run := takeIdentRun t
      if run.isEmpty then matchAtOptional t else some run
    else if identChar c then some (takeIdentRun (c :: t))
    else matchAtOptional t

/-- Candidates contributed by the optional structural pass: for each anchor
`(href, textContent)`, the href pattern capture and the text pattern
capture.  The anchor list models the result of the optional DOM
capability; when the capability is absent or fails, it is empty. -/
def anchorCandidates (anchors : List (Txt × Txt)) : List Txt :=
  anchors.foldr
    (fun a acc =>
      (findCapture (strToL "instagram.com/") a.1).toList ++
      (matchAtOptional a.2).toList ++ acc) []

/-- All candidates collected by the four passes, in source order. -/
def allCandidates (anchors : List (Txt × Txt)) (htmlText : Txt) : List Txt :=
  scanWith matchUrlAt htmlText.length htmlText ++
  scanWith matchAtAt htmlText.length htmlText ++
  scanWith matchValueAt htmlText.length htmlText ++
  anchorCandidates anchors

/-- The final filter `candidates.filter((raw) => /^[a-zA-Z0-9._]{1,30}$/.test(raw))`. -/
def plausibleCandidates (anchors : List (Txt × Txt)) (htmlText : Txt) : List Txt :=
  (allCandidates anchors htmlText).filter validIdent

/-- `parseInstagramRelationshipHtml` from `src/lib/instagramExportHtml.ts`. -/
def parseInstagramRelationshipHtml (anchors : List (Txt × Txt)) (htmlText : Txt) :
    ParseResult :=
  let usernames := uniqueSorted (plausibleCandidates anchors htmlText)
  { kind := .unknown, usernames := usernames,
    warnings := if usernames.isEmpty then [.htmlImported, .htmlEmpty] else [.htmlImported] }

example :
    parseInstagramRelationshipHtml []
      (strToL "Visit https://instagram.com/Dave/ and @erin and \"value\":\"Frank\"")
      = { kind := .unknown,
          usernames := [strToL "dave", strToL "erin", strToL "frank"],
          warnings := [.htmlImported] } := by decide

/-!  The aggregator `handleFiles` of `src/App.tsx`.  The `JSON.parse`
runtime facility is a parameter `decode` (`none` models a thrown
`SyntaxError`, the only exception source inside the `try`), and the
optional DOM capability is a parameter `dom` producing the anchor list the
structural pass of the HTML parser sees. -/

/-- The category the caller loads a batch as (`'followers' | 'following'`). -/
inductive Category where
  | followers
  | following
deriving DecidableEq

/-- Embeds the expected category into the detected-kind type. -/
def kindOfCat : Category → Kind
  | .followers => .followers
  | .following => .following

/-- One uploaded file: name and decoded text content. -/
structure FileRec where
  name : Txt
  content : Txt
deriving DecidableEq

/-- The aggregator warnings of `handleFiles`, one constructor per message
template, carrying the interpolated parts. -/
inductive AWarn where
  /-- `"name": w` — a parser warning re-attributed to its file. -/
  | fileWarn (name : Txt) (w : PWarn)
  /-- '"name": el nombre sugiere "following" pero lo cargaste como seguidores.' -/
  | nameSuggestsFollowing (name : Txt)
  /-- '"name": el nombre sugiere "followers" pero lo cargaste como seguidos.' -/
  | nameSuggestsFollowers (name : Txt)
  /-- 'En "name" no pude extraer usernames.' -/
  | noUsernames (name : Txt)
  /-- 'El archivo "name" parece ser "detected" pero lo cargaste como "expected". ...' -/
  | kindMismatch (name : Txt) (detected expected : Kind)
  /-- '"name": no pude parsearlo como JSON. ...' -/
  | decodeFailure (name : Txt)
deriving DecidableEq

/-- The aggregated per-category result: merged identifiers, warnings in
file order, and the failure flag (`usernames.length === 0`). -/
structure AggResult where
  usernames : List Txt
  warnings : List AWarn
  failed : Bool
deriving DecidableEq

/-- `/^\s*</.test(text)`. -/
def looksLikeHtml (text : Txt) : Bool :=
  match text.dropWhile isJsWs with
  | 60 :: _ => true
  | _ => false

/-- `file.name.toLowerCase().endsWith('.html') || ....endsWith('.htm')`. -/
def isHtmlByName (name : Txt) : Bool :=
  (strToL ".html").isSuffixOf (toLowerL name) || (strToL ".htm").isSuffixOf (toLowerL name)

/-- `String.prototype.includes`. -/
def listContains (l pat : Txt) : Bool := l.tails.any (fun t => pat.isPrefixOf t)

/-- The net effect of one loop iteration of `handleFiles` on one file:
the usernames it contributes to the merged set and the warnings it
appends, in order.  Neither depends on the running accumulation. -/
def fileOutcome (decode : Txt → Option Json) (dom : Txt → List (Txt × Txt))
    (expected : Category) (f : FileRec) : List Txt × List AWarn :=
  if looksLikeHtml f.content || isHtmlByName f.name then
    let result := parseInstagramRelationshipHtml (dom f.content) f.content
    if result.usernames.isEmpty then
      ([], result.warnings.map (AWarn.fileWarn f.name))
    else
      let lower := toLowerL f.name
      let suggest :=
        if expected = .followers ∧ listContains lower (strToL "following") then
          [AWarn.nameSuggestsFollowing f.name]
        else if expected = .following ∧ listContains lower (strToL "followers") then
          [AWarn.nameSuggestsFollowers f.name]
        else []
      (result.usernames, suggest ++ result.warnings.map (AWarn.fileWarn f.name))
  else
    match decode f.content with
    | none => ([], [AWarn.decodeFailure f.name])
    | some json =>
      let result := parseInstagramRelationshipJson json
      if result.usernames.isEmpty then ([], [AWarn.noUsernames f.name])
      else
        let mism :=
          if result.kind ≠ Kind.unknown ∧ result.kind ≠ kindOfCat expected then
            [AWarn.kindMismatch f.name result.kind (kindOfCat expected)]
          else []
        (result.usernames, mism ++ result.warnings.map (AWarn.fileWarn f.name))

/-- One fold step: merge the file's usernames into the running set and
append its warnings. -/
def aggStep (decode : Txt → Option Json) (dom : Txt → List (Txt × Txt))
    (expected : Category) (acc : List Txt × List AWarn) (f : FileRec) :
    List Txt × List AWarn :=
  let out := fileOutcome decode dom expected f
  (addAll acc.1 out.1, acc.2 ++ out.2)

/-- The file loop of `handleFiles`. -/
def aggLoop (decode : Txt → Option Json) (dom : Txt → List (Txt × Txt))
    (expected : Category) (files : List FileRec) : List Txt × List AWarn :=
  files.foldl (aggStep decode dom expected) ([], [])

/-- The tail of `handleFiles`: sort the merged set; the failure flag is
`usernames.length === 0`. -/
def finalizeAgg (acc : List Txt × List AWarn) : AggResult :=
  let usernames := sortLex acc.1
  { usernames := usernames, warnings := acc.2, failed := usernames.isEmpty }

/-- `handleFiles` from `src/App.tsx` (its aggregation core; the state
setters are presentation).  An empty selection returns early without
producing a category result, modelled as `none`. -/
def handleFiles (decode : Txt → Option Json) (dom : Txt → List (Txt × Txt))
    (expected : Category) (files : List FileRec) : Option AggResult :=
  if files.isEmpty then none
  else some (finalizeAgg (aggLoop decode dom expected files))

/-- `notFollowingBack` from `src/App.tsx`:
`following.filter((u) => !followersSet.has(u))`. -/
def notFollowingBack (followers following : List Txt) : List Txt :=
  following.filter (fun u => !(followers.contains u))

example :
    notFollowingBack [strToL "alice", strToL "bob"]
      [strToL "alice", strToL "bob", strToL "carol"] = [strToL "carol"] := by decide

/-- The first path segment after `lit`, read up to the next `/` or the end
of the string. -/
def segAfterLit (lit : Txt) : Txt → Option Txt
  | [] => none
  | c :: t =>
    match dropLit lit (c :: t) with
    | some r => some (r.takeWhile (fun d => !(d == 47)))
    | none => segAfterLit lit t

/-- Modelled from the spec: the Entry Extractor's ordered fallback exactly
as the spec words it (first non-empty `value` among the list-of-records
field; else non-empty `title`; else the first `href` whose profile-URL
path segment — preferring the one after `/_u/` — fully satisfies the
identifier grammar).  For comparison with
`extractUsernameFromRelationshipEntry`. -/
def specExtractEntry (entry : Json) : Option Txt :=
  match
    (match asArray (getField entry (strToL "string_list_data")) with
     | some sld => firstValueIn sld
     | none => none) with
  | some v => some v
  | none =>
    match titleJ entry with
    | some t => some t
    | none =>
      match asArray (getField entry (strToL "string_list_data")) with
      | some sld => sld.foldr
          (fun item acc =>
            match entryHref item with
            | some h =>
              (match segAfterLit (strToL "instagram.com/_u/") h with
               | some seg => if validIdent seg then some seg else none
               | none =>
                 match segAfterLit (strToL "instagram.com/") h with
                 | some seg => if validIdent seg then some seg else none
                 | none => none).orElse (fun _ => acc)
            | none => acc) none
      | none => none

/-- Concrete structured file used by the aggregator example: one followers
entry whose value is `alice`. -/
def exJsonAlice : Json :=
  .obj [(strToL "relationships_followers",
         .arr [.obj [(strToL "string_list_data",
                      .arr [.obj [(strToL "value", .str (strToL "alice"))]])]])]

/-- Concrete decode function for the aggregator example: the text `good`
decodes to `exJsonAlice`, everything else fails to decode. -/
def exDecode : Txt → Option Json :=
  fun s => if s = strToL "good" then some exJsonAlice else none

example :
    handleFiles exDecode (fun _ => []) .followers
      [⟨strToL "followers_1.json", strToL "bad"⟩, ⟨strToL "followers_2.json", strToL "good"⟩]
      = some { usernames := [strToL "alice"],
               warnings := [.decodeFailure (strToL "followers_1.json")],
               failed := false } := by decide

/-!  Order lemmas for the comparator model. -/

theorem lexLe_refl (l : Txt) : lexLe l l = true := by
  induction l with
  | nil => rfl
  | cons a as ih => simp [lexLe, ih]

theorem lexLe_total (a b : Txt) : lexLe a b = true ∨ lexLe b a = true := by
  induction a generalizing b with
  | nil => left; rfl
  | cons x xs ih =>
    cases b with
    | nil => right; rfl
    | cons y ys =>
      rcases Nat.lt_trichotomy x y with h | h | h
      · left; simp [lexLe, h]
      · subst h
        rcases ih ys with h2 | h2
        · left; simp [lexLe, h2]
        · right; simp [lexLe, h2]
      · right; simp [lexLe, h]

theorem lexLe_trans {a b c : Txt} (h1 : lexLe a b = true) (h2 : lexLe b c = true) :
    lexLe a c = true := by
  induction a generalizing b c with
  | nil => rfl
  | cons x xs ih =>
    cases b with
    | nil => simp [lexLe] at h1
    | cons y ys =>
      cases c with
      | nil => simp [lexLe] at h2
      | cons z zs =>
        rcases Nat.lt_trichotomy x y with hxy | hxy | hxy
        · rcases Nat.lt_trichotomy y z with hyz | hyz | hyz
          · simp [lexLe, Nat.lt_trans hxy hyz]
          · subst hyz; simp [lexLe, hxy]
          · simp [lexLe, Nat.lt_asymm hyz, hyz] at h2
        · subst hxy
          rcases Nat.lt_trichotomy x z with hyz | hyz | hyz
          · simp [lexLe, hyz]
          · subst hyz
            simp only [lexLe, lt_self_iff_false, if_false] at h1 h2 ⊢
            exact ih h1 h2
          · simp [lexLe, Nat.lt_asymm hyz, hyz] at h2
        · simp [lexLe, Nat.lt_asymm hxy, hxy] at h1

theorem lexLe_antisymm : ∀ {a b : Txt}, lexLe a b = true → lexLe b a = true → a = b
  | [], [], _, _ => rfl
  | [], _ :: _, _, h2 => by simp [lexLe] at h2
  | _ :: _, [], h1, _ => by simp [lexLe] at h1
  | x :: xs, y :: ys, h1, h2 => by
    rcases Nat.lt_trichotomy x y with hxy | hxy | hxy
    · simp [lexLe, Nat.lt_asymm hxy, hxy] at h2
    · subst hxy
      simp only [lexLe, lt_self_iff_false, if_false] at h1 h2
      rw [lexLe_antisymm h1 h2]
    · simp [lexLe, Nat.lt_asymm hxy, hxy] at h1

instance : IsTotal Txt lexLeP := ⟨fun a b => lexLe_total a b⟩
instance : IsTrans Txt lexLeP := ⟨fun _ _ _ h1 h2 => lexLe_trans h1 h2⟩
instance : IsAntisymm Txt lexLeP := ⟨fun _ _ h1 h2 => lexLe_antisymm h1 h2⟩
instance : IsRefl Txt lexLeP := ⟨fun a => lexLe_refl a⟩

theorem sortLex_perm (l : List Txt) : List.Perm (sortLex l) l :=
  List.perm_insertionSort lexLeP l

theorem sortLex_sorted (l : List Txt) : List.Sorted lexLeP (sortLex l) :=
  List.sorted_insertionSort lexLeP l

theorem sortLex_eq_of_perm {l1 l2 : List Txt} (h : List.Perm l1 l2) :
    sortLex l1 = sortLex l2 :=
  List.eq_of_perm_of_sorted ((sortLex_perm l1).trans (h.trans (sortLex_perm l2).symm))
    (sortLex_sorted l1) (sortLex_sorted l2)

/-!  Lemmas about the insertion-ordered set model. -/

theorem mem_addUnique {s : List Txt} {u a : Txt} : a ∈ addUnique s u ↔ a ∈ s ∨ a = u := by
  unfold addUnique
  split
  · rename_i h
    constructor
    · exact fun ha => Or.inl ha
    · rintro (ha | rfl)
      · exact ha
      · exact h
  · simp

theorem nodup_addUnique {s : List Txt} (h : s.Nodup) (u : Txt) : (addUnique s u).Nodup := by
  unfold addUnique
  split
  · exact h
  · rename_i hu
    simp [List.nodup_append, h, hu]

theorem addAll_cons (s : List Txt) (u : Txt) (rest : List Txt) :
    addAll s (u :: rest) = addAll (addUnique s u) rest := rfl

theorem mem_addAll {s us : List Txt} {a : Txt} : a ∈ addAll s us ↔ a ∈ s ∨ a ∈ us := by
  induction us generalizing s with
  | nil => simp [addAll]
  | cons u rest ih =>
    rw [addAll_cons, ih, mem_addUnique]
    simp [or_assoc]

theorem nodup_addAll {s : List Txt} (h : s.Nodup) (us : List Txt) : (addAll s us).Nodup := by
  induction us generalizing s with
  | nil => exact h
  | cons u rest ih => exact ih (nodup_addUnique h u)

theorem mem_foldl_dedupe {l : List Txt} {s : List Txt} {a : Txt} :
    a ∈ l.foldl dedupeStep s ↔
      a ∈ s ∨ ∃ raw, raw ∈ l ∧ a = normalizeUsername raw ∧
        (normalizeUsername raw).isEmpty = false := by
  induction l generalizing s with
  | nil => simp
  | cons u rest ih =>
    rw [List.foldl_cons, ih]
    unfold dedupeStep
    by_cases hu : (normalizeUsername u).isEmpty
    · rw [if_pos hu]
      constructor
      · rintro (ha | ⟨raw, hraw, he, hne⟩)
        · exact Or.inl ha
        · exact Or.inr ⟨raw, List.mem_cons_of_mem u hraw, he, hne⟩
      · rintro (ha | ⟨raw, hraw, he, hne⟩)
        · exact Or.inl ha
        · rcases List.mem_cons.mp hraw with rfl | hmem
          · rw [hu] at hne; cases hne
          · exact Or.inr ⟨raw, hmem, he, hne⟩
    · rw [if_neg hu]
      constructor
      · rintro (ha | ⟨raw, hraw, he, hne⟩)
        · rcases mem_addUnique.mp ha with ha | rfl
          · exact Or.inl ha
          · exact Or.inr ⟨u, List.mem_cons_self u rest,
              rfl, Bool.eq_false_iff.mpr hu⟩
        · exact Or.inr ⟨raw, List.mem_cons_of_mem u hraw, he, hne⟩
      · rintro (ha | ⟨raw, hraw, he, hne⟩)
        · exact Or.inl (mem_addUnique.mpr (Or.inl ha))
        · rcases List.mem_cons.mp hraw with rfl | hmem
          · exact Or.inl (mem_addUnique.mpr (Or.inr he))
          · exact Or.inr ⟨raw, hmem, he, hne⟩

theorem nodup_foldl_dedupe {l : List Txt} {s : List Txt} (h : s.Nodup) :
    (l.foldl dedupeStep s).Nodup := by
  induction l generalizing s with
  | nil => exact h
  | cons u rest ih =>
    rw [List.foldl_cons]
    unfold dedupeStep
    by_cases hu : (normalizeUsername u).isEmpty
    · rw [if_pos hu]; exact ih h
    · rw [if_neg hu]; exact ih (nodup_addUnique h (normalizeUsername u))

theorem nodup_dedupeNormalized (l : List Txt) : (dedupeNormalized l).Nodup :=
  nodup_foldl_dedupe List.nodup_nil

theorem mem_dedupeNormalized {l : List Txt} {a : Txt} :
    a ∈ dedupeNormalized l ↔
      ∃ raw, raw ∈ l ∧ a = normalizeUsername raw ∧
        (normalizeUsername raw).isEmpty = false := by
  unfold dedupeNormalized
  rw [mem_foldl_dedupe]
  simp

theorem mem_uniqueSorted {l : List Txt} {a : Txt} :
    a ∈ uniqueSorted l ↔
      ∃ raw, raw ∈ l ∧ a = normalizeUsername raw ∧
        (normalizeUsername raw).isEmpty = false := by
  unfold uniqueSorted
  rw [(sortLex_perm (dedupeNormalized l)).mem_iff, mem_dedupeNormalized]

/-!  Character-level lemmas. -/

theorem lowerChar_eq (c : Nat) : lowerChar c = if 65 ≤ c ∧ c ≤ 90 then c + 32 else c := rfl

theorem lowerChar_idem (c : Nat) : lowerChar (lowerChar c) = lowerChar c := by
  unfold lowerChar
  by_cases h : 65 ≤ c ∧ c ≤ 90
  · simp only [if_pos h]
    exact if_neg (by omega)
  · simp only [if_neg h]

theorem isJsWs_iff (c : Nat) :
    isJsWs c = true ↔
      c = 9 ∨ c = 10 ∨ c = 11 ∨ c = 12 ∨ c = 13 ∨ c = 32 ∨ c = 160 ∨
      c = 8232 ∨ c = 8233 ∨ c = 65279 := by
  simp only [isJsWs, Bool.or_eq_true, beq_iff_eq]
  omega

theorem isJsWs_lowerChar (c : Nat) : isJsWs (lowerChar c) = isJsWs c := by
  by_cases h : 65 ≤ c ∧ c ≤ 90
  · have h1 : isJsWs c = false := by
      rw [Bool.eq_false_iff]
      intro hc
      rw [isJsWs_iff] at hc
      omega
    have h2 : isJsWs (c + 32) = false := by
      rw [Bool.eq_false_iff]
      intro hc
      rw [isJsWs_iff] at hc
      omega
    rw [lowerChar_eq, if_pos h, h1, h2]
  · rw [lowerChar_eq, if_neg h]

theorem lowerChar_eq_64 {c : Nat} : lowerChar c = 64 ↔ c = 64 := by
  rw [lowerChar_eq]
  split <;> omega

theorem identChar_iff (c : Nat) :
    identChar c = true ↔
      (97 ≤ c ∧ c ≤ 122) ∨ (65 ≤ c ∧ c ≤ 90) ∨ (48 ≤ c ∧ c ≤ 57) ∨
      c = 46 ∨ c = 95 := by
  simp only [identChar, Bool.or_eq_true, Bool.and_eq_true, decide_eq_true_eq, beq_iff_eq]
  omega

theorem lowerIdentChar_iff (c : Nat) :
    lowerIdentChar c = true ↔
      (97 ≤ c ∧ c ≤ 122) ∨ (48 ≤ c ∧ c ≤ 57) ∨ c = 46 ∨ c = 95 := by
  simp only [lowerIdentChar, Bool.or_eq_true, Bool.and_eq_true, decide_eq_true_eq, beq_iff_eq]
  omega

theorem identChar_not_ws {c : Nat} (h : identChar c = true) : isJsWs c = false := by
  rw [identChar_iff] at h
  rw [Bool.eq_false_iff]
  intro hc
  rw [isJsWs_iff] at hc
  omega

theorem identChar_ne_64 {c : Nat} (h : identChar c = true) : c ≠ 64 := by
  rw [identChar_iff] at h
  omega

theorem lowerIdentChar_lowerChar {c : Nat} (h : identChar c = true) :
    lowerIdentChar (lowerChar c) = true := by
  rw [identChar_iff] at h
  rw [lowerIdentChar_iff, lowerChar_eq]
  split <;> omega

/-!  Trim lemmas. -/

theorem dropWhile_head_not {p : Nat → Bool} :
    ∀ {l : Txt} {c : Nat} {t : Txt}, l.dropWhile p = c :: t → p c = false
  | [], _, _, h => by simp at h
  | a :: as, c, t, h => by
    rw [List.dropWhile_cons] at h
    by_cases hpa : p a
    · rw [if_pos hpa] at h
      exact dropWhile_head_not h
    · rw [if_neg hpa] at h
      injection h with h1 _
      subst h1
      exact Bool.eq_false_iff.mpr hpa

theorem dropWhile_eq_self_of_head {p : Nat → Bool} {l : Txt}
    (h : ∀ c t, l = c :: t → p c = false) : l.dropWhile p = l := by
  cases l with
  | nil => rfl
  | cons a as => rw [List.dropWhile_cons, if_neg (by simp [h a as rfl])]

theorem trimR_prefix (l : Txt) : trimR l ++ (l.reverse.takeWhile isJsWs).reverse = l := by
  unfold trimR
  rw [← List.reverse_append, List.takeWhile_append_dropWhile, List.reverse_reverse]

theorem head_trimR {l : Txt} {c : Nat} {t : Txt} (h : trimR l = c :: t) :
    ∃ t', l = c :: t' := by
  have hp := trimR_prefix l
  rw [h] at hp
  exact ⟨t ++ (l.reverse.takeWhile isJsWs).reverse, hp.symm⟩

theorem jsTrim_head_not_ws {x : Txt} {c : Nat} {t : Txt} (h : jsTrim x = c :: t) :
    isJsWs c = false := by
  unfold jsTrim at h
  obtain ⟨t', ht'⟩ := head_trimR h
  exact dropWhile_head_not (p := isJsWs) (l := x) ht'

theorem jsTrim_getLast_not_ws {x : Txt} {c : Nat}
    (h : (jsTrim x).getLast? = some c) : isJsWs c = false := by
  unfold jsTrim trimR at h
  rw [List.getLast?_reverse] at h
  cases hd : List.dropWhile isJsWs (trimL x).reverse with
  | nil => rw [hd] at h; simp at h
  | cons a as =>
    rw [hd] at h
    simp only [List.head?_cons, Option.some.injEq] at h
    subst h
    exact dropWhile_head_not hd

theorem trimL_eq_self {l : Txt} (h : ∀ c t, l = c :: t → isJsWs c = false) :
    trimL l = l :=
  dropWhile_eq_self_of_head h

theorem trimR_eq_self {l : Txt} (h : ∀ c, l.getLast? = some c → isJsWs c = false) :
    trimR l = l := by
  unfold trimR
  have hrev : l.reverse.dropWhile isJsWs = l.reverse := by
    apply dropWhile_eq_self_of_head
    intro c t hct
    apply h
    rw [← List.head?_reverse, hct]
    rfl
  rw [hrev, List.reverse_reverse]

theorem getLast?_map (f : Nat → Nat) (l : Txt) :
    (l.map f).getLast? = l.getLast?.map f := by
  rw [← List.head?_reverse, ← List.map_reverse, ← List.head?_reverse]
  cases l.reverse <;> simp

/-- The trimmed forms on which a second normalization can act: a leading
`@` followed by another `@` or by whitespace survives into the output. -/
def goodAfterAt : Txt → Bool
  | 64 :: c :: _ => !(c == 64 || isJsWs c)
  | _ => true

theorem normalize_fixed {z : Txt}
    (hhead : ∀ c t, z = c :: t → (isJsWs c = false ∧ c ≠ 64))
    (hlast : ∀ c, z.getLast? = some c → isJsWs c = false) :
    normalizeUsername (toLowerL z) = toLowerL z := by
  have hheadY : ∀ c t, toLowerL z = c :: t → (isJsWs c = false ∧ c ≠ 64) := by
    intro c t hct
    cases z with
    | nil => simp [toLowerL] at hct
    | cons a as =>
      rw [toLowerL, List.map_cons] at hct
      injection hct with h1 _
      obtain ⟨hws, hne⟩ := hhead a as rfl
      constructor
      · rw [← h1, isJsWs_lowerChar]
        exact hws
      · rw [← h1]
        intro hc
        exact hne (lowerChar_eq_64.mp hc)
  have hlastY : ∀ c, (toLowerL z).getLast? = some c → isJsWs c = false := by
    intro c hc
    rw [toLowerL, getLast?_map] at hc
    cases hz : z.getLast? with
    | none => rw [hz] at hc; simp at hc
    | some d =>
      rw [hz] at hc
      simp only [Option.map_some', Option.some.injEq] at hc
      rw [← hc, isJsWs_lowerChar]
      exact hlast d hz
  unfold normalizeUsername
  have h1 : jsTrim (toLowerL z) = toLowerL z := by
    unfold jsTrim
    rw [trimL_eq_self (fun c t hct => (hheadY c t hct).1)]
    exact trimR_eq_self hlastY
  rw [h1]
  have h2 : stripAt (toLowerL z) = toLowerL z := by
    cases hz : toLowerL z with
    | nil => rfl
    | cons c cs =>
      simp only [stripAt]
      rw [if_neg ((hheadY c cs hz).2)]
  rw [h2]
  unfold toLowerL
  rw [List.map_map]
  apply List.map_congr_left
  intro a _
  simp only [Function.comp_apply]
  exact lowerChar_idem a

theorem normalizeUsername_idem {x : Txt} (h : goodAfterAt (jsTrim x) = true) :
    normalizeUsername (normalizeUsername x) = normalizeUsername x := by
  have hx : normalizeUsername x = toLowerL (stripAt (jsTrim x)) := rfl
  cases ht : jsTrim x with
  | nil => rw [hx, ht]; rfl
  | cons a r =>
    by_cases ha : a = 64
    · subst ha
      cases r with
      | nil => rw [hx, ht]; rfl
      | cons c rs =>
        rw [ht] at h
        simp only [goodAfterAt, Bool.not_eq_true', Bool.or_eq_false_iff, beq_eq_false_iff_ne,
          ne_eq] at h
        rw [hx, ht]
        have hs : stripAt (64 :: c :: rs) = c :: rs := by simp [stripAt]
        rw [hs]
        apply normalize_fixed
        · intro d t hdt
          injection hdt with h1 _
          subst h1
          exact ⟨h.2, h.1⟩
        · intro d hd
          apply jsTrim_getLast_not_ws (x := x)
          rw [ht, List.getLast?_cons_cons]
          exact hd
    · rw [hx, ht]
      have hs : stripAt (a :: r) = a :: r := by simp [stripAt, ha]
      rw [hs]
      apply normalize_fixed
      · intro d t hdt
        injection hdt with h1 _
        subst h1
        exact ⟨jsTrim_head_not_ws ht, ha⟩
      · intro d hd
        apply jsTrim_getLast_not_ws (x := x)
        rw [ht]
        exact hd

theorem mem_takeWhile_pred {p : Nat → Bool} :
    ∀ {l : Txt} {x : Nat}, x ∈ l.takeWhile p → p x = true
  | [], _, h => by simp at h
  | a :: as, x, h => by
    rw [List.takeWhile_cons] at h
    by_cases hpa : p a
    · rw [if_pos hpa] at h
      rcases List.mem_cons.mp h with rfl | h2
      · exact hpa
      · exact mem_takeWhile_pred h2
    · rw [if_neg hpa] at h
      simp at h

theorem validIdent_iff {l : Txt} :
    validIdent l = true ↔ l ≠ [] ∧ l.length ≤ 30 ∧ ∀ c ∈ l, identChar c = true := by
  unfold validIdent
  cases l with
  | nil => simp
  | cons a as => simp [List.all_eq_true, and_assoc]

/-- On a string of identifier characters, normalization is just
lowercasing: there is no surrounding whitespace and no leading `@`. -/
theorem normalizeUsername_of_ident {l : Txt} (h : ∀ c ∈ l, identChar c = true) :
    normalizeUsername l = toLowerL l := by
  unfold normalizeUsername
  have htr : jsTrim l = l := by
    unfold jsTrim
    rw [trimL_eq_self (fun c t hct =>
      identChar_not_ws (h c (by rw [hct]; exact List.mem_cons_self c t)))]
    exact trimR_eq_self fun c hc =>
      identChar_not_ws (h c (List.mem_of_mem_getLast? hc))
  rw [htr]
  have hs : stripAt l = l := by
    cases hl : l with
    | nil => rfl
    | cons c cs =>
      simp only [stripAt]
      rw [if_neg (identChar_ne_64 (h c (by rw [hl]; exact List.mem_cons_self c cs)))]
  rw [hs]

theorem normalizeUsername_valid {l : Txt} (h : validIdent l = true) :
    normalizeUsername l = toLowerL l ∧ normalizeUsername l ≠ [] ∧
      (normalizeUsername l).length ≤ 30 ∧
      ∀ c ∈ normalizeUsername l, lowerIdentChar c = true := by
  obtain ⟨hne, hlen, hall⟩ := validIdent_iff.mp h
  have heq := normalizeUsername_of_ident hall
  refine ⟨heq, ?_, ?_, ?_⟩
  · rw [heq]
    unfold toLowerL
    simp [hne]
  · rw [heq]
    unfold toLowerL
    simpa using hlen
  · intro c hc
    rw [heq] at hc
    unfold toLowerL at hc
    obtain ⟨a, ha, rfl⟩ := List.mem_map.mp hc
    exact lowerIdentChar_lowerChar (hall a ha)

theorem isEmpty_true_iff {α : Type} {l : List α} : l.isEmpty = true ↔ l = [] := by
  cases l <;> simp

theorem isEmpty_false_iff {α : Type} {l : List α} : l.isEmpty = false ↔ l ≠ [] := by
  cases l <;> simp

/-- C7 — The Normalizer is idempotent.
The claim as stated fails (see `C7_counterexample`): stripping the leading
`@` can expose whitespace or a second `@` that the already-performed trim
can no longer remove.  Amended: idempotence holds for every input whose
trimmed form does not start with `@` followed by another `@` or by a
whitespace character, and the concrete equalities
`normalize("@Foo") = normalize("foo") = normalize(" foo ") = "foo"` hold. -/
theorem C7_normalizer_idempotent (x : Txt) (h : goodAfterAt (jsTrim x) = true) :
    normalizeUsername (normalizeUsername x) = normalizeUsername x
    ∧ normalizeUsername (strToL "@Foo") = strToL "foo"
    ∧ normalizeUsername (strToL "foo") = strToL "foo"
    ∧ normalizeUsername (strToL " foo ") = strToL "foo" :=
  ⟨normalizeUsername_idem h, by decide, by decide, by decide⟩

/-- C7 — counterexample to the claim as stated: on `"@ foo"` the first
normalization yields `" foo"`, the second `"foo"`. -/
theorem C7_counterexample :
    normalizeUsername (normalizeUsername (strToL "@ foo"))
      ≠ normalizeUsername (strToL "@ foo") := by decide

theorem C7_witness :
    normalizeUsername (normalizeUsername (strToL "@Foo")) = normalizeUsername (strToL "@Foo") :=
  (C7_normalizer_idempotent (strToL "@Foo") (by decide)).1

/-- C6 — Dedupe/Sort invariant.
The claim as stated fails (see `C6_counterexample`): output elements are
normalized values of raw tokens, but such a value need not be a fixed
point of normalization, so two distinct outputs can share a normalized
value.  Amended: the output is strictly ascending under the comparator (in
particular it contains no two equal elements, deduplication being by the
normalized value of each raw token), and every output element is the
non-empty normalization of some input token. -/
theorem C6_dedupe_sort (l : List Txt) :
    List.Pairwise (fun a b => lexLe a b = true ∧ a ≠ b) (uniqueSorted l)
    ∧ ∀ u ∈ uniqueSorted l, ∃ raw ∈ l, u = normalizeUsername raw := by
  constructor
  · have hs : List.Pairwise lexLeP (uniqueSorted l) := sortLex_sorted _
    have hn : (uniqueSorted l).Nodup :=
      ((sortLex_perm (dedupeNormalized l)).nodup_iff).mpr (nodup_dedupeNormalized l)
    exact hs.and hn
  · intro u hu
    obtain ⟨raw, hraw, he, _⟩ := mem_uniqueSorted.mp hu
    exact ⟨raw, hraw, he⟩

/-- C6 — counterexample to the claim as stated: `["@ foo", "foo"]`
produces two distinct elements whose normalized values coincide. -/
theorem C6_counterexample :
    uniqueSorted [strToL "@ foo", strToL "foo"] = [strToL " foo", strToL "foo"]
    ∧ normalizeUsername (strToL " foo") = normalizeUsername (strToL "foo")
    ∧ strToL " foo" ≠ strToL "foo" := by decide

theorem C6_witness : ∃ raw ∈ [strToL "@Bob"], strToL "bob" = normalizeUsername raw :=
  (C6_dedupe_sort [strToL "@Bob"]).2 (strToL "bob") (by decide)

/-- C1 — Diff Engine: `notFollowingBack` returns exactly the elements of
`following` absent from `followers`, as a sublist of `following` (hence in
its original order, and still ascending whenever `following` is
ascending); on the concrete example it returns `["carol"]`. -/
theorem C1_diff_engine (following followers : List Txt)
    (hs : List.Pairwise lexLeP following) :
    (∀ u, u ∈ notFollowingBack followers following ↔ u ∈ following ∧ u ∉ followers)
    ∧ (notFollowingBack followers following).Sublist following
    ∧ List.Pairwise lexLeP (notFollowingBack followers following)
    ∧ notFollowingBack [strToL "alice", strToL "bob"]
        [strToL "alice", strToL "bob", strToL "carol"] = [strToL "carol"] := by
  refine ⟨?_, List.filter_sublist _, hs.sublist (List.filter_sublist _), by decide⟩
  intro u
  simp [notFollowingBack, List.mem_filter]

theorem C1_witness :
    notFollowingBack [strToL "alice", strToL "bob"]
      [strToL "alice", strToL "bob", strToL "carol"] = [strToL "carol"] :=
  (C1_diff_engine [strToL "alice", strToL "bob", strToL "carol"]
    [strToL "alice", strToL "bob"] (by decide)).2.2.2

/-- The concrete entry of the C3 example. -/
def exC3Entry : Json :=
  .obj [(strToL "string_list_data", .arr [.obj [(strToL "value", .str (strToL "Alice"))]])]

/-- The concrete input of the C3 example. -/
def exC3 : Json := .obj [(strToL "relationships_followers", .arr [exC3Entry])]

/-- C3 — Structured-Data Parser, followers branch: whenever the object has
an array-valued `relationships_followers` field, the result is kind
`followers` with the identifiers extracted from that array (and the
no-usernames warning exactly when extraction yields nothing); the concrete
example returns kind `followers`, `["alice"]`, and no warnings. -/
theorem C3_structured_followers (fields : List (Txt × Json)) (entries : List Json)
    (h : asArray (lookupField fields (strToL "relationships_followers")) = some entries) :
    parseInstagramRelationshipJson (.obj fields)
      = { kind := .followers,
          usernames := uniqueSorted (collectUsernames entries),
          warnings := if (collectUsernames entries).isEmpty then [.followersEmpty] else [] }
    ∧ parseInstagramRelationshipJson exC3
      = { kind := .followers, usernames := [strToL "alice"], warnings := [] } := by
  constructor
  · simp only [parseInstagramRelationshipJson, h]
  · decide

theorem C3_witness :
    parseInstagramRelationshipJson exC3
      = { kind := Kind.followers, usernames := [strToL "alice"], warnings := [] } :=
  (C3_structured_followers [(strToL "relationships_followers", Json.arr [exC3Entry])]
    [exC3Entry] rfl).2

/-- A field qualifies for the non-standard scan when its key starts with
`relationships_`, its value is an array, and extraction yields at least
one username. -/
def qualifiesRel : Txt × Json → Bool
  | (k, .arr es) => (strToL "relationships_").isPrefixOf k && !(collectUsernames es).isEmpty
  | _ => false

theorem tryRelField_arr (k : Txt) (entries : List Json)
    (hk : (strToL "relationships_").isPrefixOf k = true)
    (hne : (collectUsernames entries).isEmpty = false) :
    tryRelField k (Json.arr entries) = some (k, collectUsernames entries) := by
  show (if (strToL "relationships_").isPrefixOf k = true then
          if (collectUsernames entries).isEmpty = true then none
          else some (k, collectUsernames entries)
        else none) = some (k, collectUsernames entries)
  rw [if_pos hk, if_neg (by simp [hne])]

theorem tryRelField_of_not_qual {k : Txt} {v : Json}
    (h : qualifiesRel (k, v) = false) : tryRelField k v = none := by
  cases v with
  | arr es =>
    show (if (strToL "relationships_").isPrefixOf k = true then
            if (collectUsernames es).isEmpty = true then none
            else some (k, collectUsernames es)
          else none) = none
    by_cases hpk : (strToL "relationships_").isPrefixOf k = true
    · rw [if_pos hpk]
      have hes : (collectUsernames es).isEmpty = true := by
        simp only [qualifiesRel, hpk, Bool.true_and, Bool.not_eq_false'] at h
        exact h
      rw [if_pos hes]
    · rw [if_neg hpk]
  | null => simp [tryRelField]
  | bool b => simp [tryRelField]
  | num n => simp [tryRelField]
  | str str => simp [tryRelField]
  | obj fs => simp [tryRelField]

theorem scanRelKeys_first {pre : List (Txt × Json)} {k : Txt} {entries : List Json}
    {post : List (Txt × Json)}
    (hpre : ∀ p ∈ pre, qualifiesRel p = false)
    (hk : (strToL "relationships_").isPrefixOf k = true)
    (hne : (collectUsernames entries).isEmpty = false) :
    scanRelKeys (pre ++ (k, Json.arr entries) :: post) = some (k, collectUsernames entries) := by
  induction pre with
  | nil =>
    simp only [List.nil_append, scanRelKeys]
    rw [tryRelField_arr k entries hk hne]
  | cons p pre ih =>
    obtain ⟨k', v'⟩ := p
    simp only [List.cons_append, scanRelKeys]
    rw [tryRelField_of_not_qual (hpre (k', v') (List.mem_cons_self (k', v') pre))]
    exact ih (fun q hq => hpre q (List.mem_cons_of_mem (k', v') hq))

/-- C8 — Structured-Data Parser, non-standard scan.  Amended: the scan
runs in the object's own field (insertion) order, not in lexical key
order (see `C8_counterexample`); it picks the first array-valued
`relationships_`-prefixed field yielding at least one identifier and
returns kind `unknown` with a warning naming that field. -/
theorem C8_scan_field_order (pre : List (Txt × Json)) (k : Txt) (entries : List Json)
    (post : List (Txt × Json))
    (hpre : ∀ p ∈ pre, qualifiesRel p = false)
    (hk : (strToL "relationships_").isPrefixOf k = true)
    (hne : (collectUsernames entries).isEmpty = false)
    (hf1 : asArray (lookupField (pre ++ (k, Json.arr entries) :: post)
            (strToL "relationships_followers")) = none)
    (hf2 : asArray (lookupField (pre ++ (k, Json.arr entries) :: post)
            (strToL "relationships_following")) = none) :
    parseInstagramRelationshipJson (.obj (pre ++ (k, Json.arr entries) :: post))
      = { kind := Kind.unknown,
          usernames := uniqueSorted (collectUsernames entries),
          warnings := [PWarn.nonStandardKey k] } := by
  simp only [parseInstagramRelationshipJson, hf1, hf2, scanRelKeys_first hpre hk hne]

/-- The two entries of the C8 counterexample. -/
def c8EntryBob : Json :=
  .obj [(strToL "string_list_data", .arr [.obj [(strToL "value", .str (strToL "Bob"))]])]

/-- Second entry of the C8 counterexample. -/
def c8EntryAlice : Json :=
  .obj [(strToL "string_list_data", .arr [.obj [(strToL "value", .str (strToL "Alice"))]])]

/-- The C8 counterexample object: two qualifying non-standard fields whose
insertion order (`relationships_b` first) is the reverse of their lexical
order. -/
def c8Json : Json :=
  .obj [(strToL "relationships_b", .arr [c8EntryBob]),
        (strToL "relationships_a", .arr [c8EntryAlice])]

/-- C8 — counterexample to the claim as stated: the parser picks
`relationships_b` (the first field in insertion order) even though
`relationships_a` also qualifies and precedes it lexically. -/
theorem C8_counterexample :
    parseInstagramRelationshipJson c8Json
      = { kind := Kind.unknown, usernames := [strToL "bob"],
          warnings := [PWarn.nonStandardKey (strToL "relationships_b")] }
    ∧ qualifiesRel (strToL "relationships_a", Json.arr [c8EntryAlice]) = true
    ∧ lexLe (strToL "relationships_a") (strToL "relationships_b") = true
    ∧ strToL "relationships_a" ≠ strToL "relationships_b" := by decide

theorem C8_witness :
    parseInstagramRelationshipJson (.obj [(strToL "relationships_a", Json.arr [c8EntryAlice])])
      = { kind := Kind.unknown, usernames := [strToL "alice"],
          warnings := [PWarn.nonStandardKey (strToL "relationships_a")] } := by
  have h := C8_scan_field_order [] (strToL "relationships_a") [c8EntryAlice] []
    (by intro p hp; simp at hp) (by decide) (by decide) rfl rfl
  rw [List.nil_append] at h
  rw [h]
  decide

/-- Whether the entry has an array-valued `string_list_data` field. -/
def hasArraySld (entry : Json) : Bool :=
  match entry with
  | .obj fields =>
    (match asArray (lookupField fields (strToL "string_list_data")) with
     | some _ => true
     | none => false)
  | _ => false

theorem extract_none_of_no_sld {e : Json} (h : hasArraySld e = false) :
    extractUsernameFromRelationshipEntry e = none := by
  cases e with
  | obj fields =>
    simp only [hasArraySld] at h
    simp only [extractUsernameFromRelationshipEntry, isRecordJ, Bool.not_true,
      Bool.false_eq_true, if_false, getField]
    cases ha : asArray (lookupField fields (strToL "string_list_data")) with
    | none => rfl
    | some sld => rw [ha] at h; simp at h
  | arr es => rfl
  | null => rfl
  | bool b => rfl
  | num n => rfl
  | str s => rfl

theorem findCapture_valid {lit : Txt} :
    ∀ {l u : Txt}, findCapture lit l = some u →
      u ≠ [] ∧ u.length ≤ 30 ∧ ∀ c ∈ u, identChar c = true
  | [], u, h => by simp [findCapture] at h
  | c :: t, u, h => by
    rw [findCapture] at h
    cases hd : dropLit lit (c :: t) with
    | some r =>
      rw [hd] at h
      simp only at h
      by_cases hrun : (takeIdentRun r).isEmpty
      · rw [if_pos hrun] at h
        exact findCapture_valid h
      · rw [if_neg hrun] at h
        injection h with h1
        subst h1
        refine ⟨isEmpty_false_iff.mp (Bool.eq_false_iff.mpr hrun), ?_, ?_⟩
        · unfold takeIdentRun
          exact List.length_take_le 30 _
        · intro d hd2
          unfold takeIdentRun at hd2
          exact mem_takeWhile_pred (List.mem_of_mem_take hd2)
    | none =>
      rw [hd] at h
      exact findCapture_valid h

theorem extractHref_valid {h u : Txt} (he : extractUsernameFromHref h = some u) :
    validIdent u = true := by
  unfold extractUsernameFromHref at he
  have hv : u ≠ [] ∧ u.length ≤ 30 ∧ ∀ c ∈ u, identChar c = true := by
    cases hc : findCapture (strToL "instagram.com/_u/") h with
    | some w =>
      rw [hc] at he
      injection he with he1
      subst he1
      exact findCapture_valid hc
    | none =>
      rw [hc] at he
      exact findCapture_valid he
  exact validIdent_iff.mpr hv

/-- C4 — Entry Extractor.  Amended: the ordered fallback (first non-empty
`value`, else non-empty `title`, else first usable `href`) runs only when
the entry's `string_list_data` field is an array; otherwise the extractor
returns none even when a `title` is present (see `C4_counterexample`).
The href rule captures a run of 1–30 identifier characters placed right
after `instagram.com/_u/` (preferred) or `instagram.com/`, so the capture
always satisfies the identifier grammar, but it need not be the whole
path segment.  The extractor is total (never throws). -/
theorem C4_extractor (fields : List (Txt × Json)) (sld : List Json)
    (hsld : asArray (lookupField fields (strToL "string_list_data")) = some sld) :
    (∀ e : Json, hasArraySld e = false → extractUsernameFromRelationshipEntry e = none)
    ∧ extractUsernameFromRelationshipEntry (.obj fields)
        = (match firstValueIn sld with
           | some v => some v
           | none =>
             match titleJ (.obj fields) with
             | some t => some t
             | none => firstHrefIn sld)
    ∧ (∀ h u, extractUsernameFromHref h = some u → validIdent u = true) := by
  refine ⟨fun e he => extract_none_of_no_sld he, ?_, fun h u he => extractHref_valid he⟩
  simp only [extractUsernameFromRelationshipEntry, isRecordJ, Bool.not_true,
    Bool.false_eq_true, if_false, getField, hsld]

/-- C4 — counterexample to the claim as stated: an entry carrying only a
`title` (no array-valued `string_list_data`) extracts to none, while the
spec's ordered fallback (modelled by `specExtractEntry`) yields the
title. -/
theorem C4_counterexample :
    extractUsernameFromRelationshipEntry (.obj [(strToL "title", .str (strToL "Bob"))]) = none
    ∧ specExtractEntry (.obj [(strToL "title", .str (strToL "Bob"))]) = some (strToL "Bob") := by
  constructor
  · rfl
  · rfl

theorem C4_witness :
    extractUsernameFromRelationshipEntry (Json.str (strToL "x")) = none :=
  (C4_extractor [(strToL "string_list_data", Json.arr [])] [] rfl).1
    (Json.str (strToL "x")) rfl

theorem uniqueSorted_isEmpty_of_valid {l : List Txt}
    (h : ∀ u ∈ l, validIdent u = true) :
    (uniqueSorted l).isEmpty = l.isEmpty := by
  cases l with
  | nil => rfl
  | cons u rest =>
    have hval := h u (List.mem_cons_self u rest)
    obtain ⟨-, hne, -, -⟩ := normalizeUsername_valid hval
    have hmem : normalizeUsername u ∈ uniqueSorted (u :: rest) :=
      mem_uniqueSorted.mpr ⟨u, List.mem_cons_self u rest, rfl, isEmpty_false_iff.mpr hne⟩
    have hres : uniqueSorted (u :: rest) ≠ [] := by
      intro hh
      rw [hh] at hmem
      simp at hmem
    rw [isEmpty_false_iff.mpr hres]
    simp

/-- C5 — Markup Parser: always kind `unknown`; the warning list opens with
the fixed markup-import notice and carries the second
try-structured-data warning exactly when the filtered candidate set is
empty; the concrete example extracts `["dave","erin","frank"]`. -/
theorem C5_markup_heuristics (anchors : List (Txt × Txt)) (text : Txt) :
    (parseInstagramRelationshipHtml anchors text).kind = Kind.unknown
    ∧ (parseInstagramRelationshipHtml anchors text).warnings
        = (if (plausibleCandidates anchors text).isEmpty
           then [PWarn.htmlImported, PWarn.htmlEmpty] else [PWarn.htmlImported])
    ∧ parseInstagramRelationshipHtml []
        (strToL "Visit https://instagram.com/Dave/ and @erin and \"value\":\"Frank\"")
        = { kind := Kind.unknown,
            usernames := [strToL "dave", strToL "erin", strToL "frank"],
            warnings := [PWarn.htmlImported] } := by
  refine ⟨rfl, ?_, by decide⟩
  have heq : (uniqueSorted (plausibleCandidates anchors text)).isEmpty
      = (plausibleCandidates anchors text).isEmpty :=
    uniqueSorted_isEmpty_of_valid (fun u hu => (List.mem_filter.mp hu).2)
  show (if (uniqueSorted (plausibleCandidates anchors text)).isEmpty = true
        then [PWarn.htmlImported, PWarn.htmlEmpty] else [PWarn.htmlImported]) = _
  rw [heq]

/-- C10 — every identifier the Markup Parser returns is a non-empty
string of at most 30 characters over the lowercased identifier alphabet
`[a-z0-9._]`. -/
theorem C10_markup_grammar (anchors : List (Txt × Txt)) (text : Txt) (u : Txt)
    (hu : u ∈ (parseInstagramRelationshipHtml anchors text).usernames) :
    u ≠ [] ∧ u.length ≤ 30 ∧ ∀ c ∈ u, lowerIdentChar c = true := by
  have hu' : u ∈ uniqueSorted (plausibleCandidates anchors text) := hu
  obtain ⟨raw, hraw, rfl, -⟩ := mem_uniqueSorted.mp hu'
  obtain ⟨-, hne, hlen, hall⟩ := normalizeUsername_valid ((List.mem_filter.mp hraw).2)
  exact ⟨hne, hlen, hall⟩

theorem C10_witness :
    strToL "bob" ≠ [] ∧ (strToL "bob").length ≤ 30 ∧
      ∀ c ∈ strToL "bob", lowerIdentChar c = true :=
  C10_markup_grammar [] (strToL "@bob") (strToL "bob") (by decide)

theorem aggStep_eq (d : Txt → Option Json) (dom : Txt → List (Txt × Txt))
    (e : Category) (s : List Txt) (w : List AWarn) (f : FileRec) :
    aggStep d dom e (s, w) f
      = (addAll s (fileOutcome d dom e f).1, w ++ (fileOutcome d dom e f).2) := rfl

theorem foldl_agg_set_indep (d : Txt → Option Json) (dom : Txt → List (Txt × Txt))
    (e : Category) :
    ∀ (files : List FileRec) (s : List Txt) (w w' : List AWarn),
      (files.foldl (aggStep d dom e) (s, w)).1
        = (files.foldl (aggStep d dom e) (s, w')).1 := by
  intro files
  induction files with
  | nil => intros; rfl
  | cons f fs ih =>
    intro s w w'
    rw [List.foldl_cons, List.foldl_cons, aggStep_eq, aggStep_eq]
    exact ih _ _ _

theorem foldl_agg_warnings (d : Txt → Option Json) (dom : Txt → List (Txt × Txt))
    (e : Category) :
    ∀ (files : List FileRec) (s : List Txt) (w : List AWarn),
      (files.foldl (aggStep d dom e) (s, w)).2
        = w ++ (files.foldl (aggStep d dom e) (s, [])).2 := by
  intro files
  induction files with
  | nil => intro s w; simp
  | cons f fs ih =>
    intro s w
    rw [List.foldl_cons, List.foldl_cons, aggStep_eq, aggStep_eq, List.nil_append,
      ih _ (w ++ (fileOutcome d dom e f).2), ih _ ((fileOutcome d dom e f).2),
      List.append_assoc]

theorem foldl_agg_mem (d : Txt → Option Json) (dom : Txt → List (Txt × Txt))
    (e : Category) :
    ∀ (files : List FileRec) (s : List Txt) (w : List AWarn) (a : Txt),
      a ∈ (files.foldl (aggStep d dom e) (s, w)).1 ↔
        a ∈ s ∨ ∃ f ∈ files, a ∈ (fileOutcome d dom e f).1 := by
  intro files
  induction files with
  | nil => simp
  | cons f fs ih =>
    intro s w a
    rw [List.foldl_cons, aggStep_eq, ih]
    constructor
    · rintro (h | ⟨g, hg, hga⟩)
      · rcases mem_addAll.mp h with h | h
        · exact Or.inl h
        · exact Or.inr ⟨f, List.mem_cons_self f fs, h⟩
      · exact Or.inr ⟨g, List.mem_cons_of_mem f hg, hga⟩
    · rintro (h | ⟨g, hg, hga⟩)
      · exact Or.inl (mem_addAll.mpr (Or.inl h))
      · rcases List.mem_cons.mp hg with rfl | hmem
        · exact Or.inl (mem_addAll.mpr (Or.inr hga))
        · exact Or.inr ⟨g, hmem, hga⟩

theorem foldl_agg_nodup (d : Txt → Option Json) (dom : Txt → List (Txt × Txt))
    (e : Category) :
    ∀ (files : List FileRec) (s : List Txt) (w : List AWarn), s.Nodup →
      (files.foldl (aggStep d dom e) (s, w)).1.Nodup := by
  intro files
  induction files with
  | nil => intro s w h; exact h
  | cons f fs ih =>
    intro s w h
    rw [List.foldl_cons, aggStep_eq]
    exact ih _ _ (nodup_addAll h _)

theorem mem_aggLoop_set (d : Txt → Option Json) (dom : Txt → List (Txt × Txt))
    (e : Category) (files : List FileRec) (a : Txt) :
    a ∈ (aggLoop d dom e files).1 ↔ ∃ f ∈ files, a ∈ (fileOutcome d dom e f).1 := by
  unfold aggLoop
  rw [foldl_agg_mem]
  simp

theorem nodup_aggLoop_set (d : Txt → Option Json) (dom : Txt → List (Txt × Txt))
    (e : Category) (files : List FileRec) : (aggLoop d dom e files).1.Nodup :=
  foldl_agg_nodup d dom e files [] [] List.nodup_nil

/-- C2 — Aggregator, per-file decode failure.  A non-markup file whose
structured-data decode fails contributes exactly one warning naming the
file and nothing else; the remaining files are processed as if it were
absent.  The failure flag of any produced result is set iff the merged
identifier sequence is empty.  The concrete two-file example yields
`["alice"]`, `failed = false`, and the per-file decode-failure warning. -/
theorem C2_aggregator (d : Txt → Option Json) (dom : Txt → List (Txt × Txt))
    (exp : Category) (f : FileRec) (rest : List FileRec)
    (hHtml : (looksLikeHtml f.content || isHtmlByName f.name) = false)
    (hDec : d f.content = none) :
    handleFiles d dom exp (f :: rest)
      = some { usernames := sortLex (aggLoop d dom exp rest).1,
               warnings := AWarn.decodeFailure f.name :: (aggLoop d dom exp rest).2,
               failed := (sortLex (aggLoop d dom exp rest).1).isEmpty }
    ∧ (∀ fs res, handleFiles d dom exp fs = some res →
        (res.failed = true ↔ res.usernames = []))
    ∧ handleFiles exDecode (fun _ => []) Category.followers
        [⟨strToL "followers_1.json", strToL "bad"⟩, ⟨strToL "followers_2.json", strToL "good"⟩]
        = some { usernames := [strToL "alice"],
                 warnings := [AWarn.decodeFailure (strToL "followers_1.json")],
                 failed := false } := by
  refine ⟨?_, ?_, by decide⟩
  · have hout : fileOutcome d dom exp f = ([], [AWarn.decodeFailure f.name]) := by
      unfold fileOutcome
      rw [if_neg (by simp [hHtml]), hDec]
    have hstep : aggStep d dom exp ([], []) f = ([], [AWarn.decodeFailure f.name]) := by
      rw [aggStep_eq, hout]
      rfl
    unfold handleFiles
    rw [if_neg (by simp)]
    unfold aggLoop
    rw [List.foldl_cons, hstep]
    unfold finalizeAgg
    rw [foldl_agg_set_indep d dom exp rest [] [AWarn.decodeFailure f.name] [],
      foldl_agg_warnings d dom exp rest []]
    rfl
  · intro fs res hres
    unfold handleFiles at hres
    by_cases hfs : fs.isEmpty
    · rw [if_pos hfs] at hres
      cases hres
    · rw [if_neg hfs] at hres
      injection hres with hres
      subst hres
      unfold finalizeAgg
      constructor
      · intro hh
        exact isEmpty_true_iff.mp hh
      · intro hh
        rw [isEmpty_true_iff]
        exact hh

theorem C2_witness :
    handleFiles exDecode (fun _ => []) Category.followers
      [⟨strToL "followers_1.json", strToL "bad"⟩, ⟨strToL "followers_2.json", strToL "good"⟩]
      = some { usernames := [strToL "alice"],
               warnings := [AWarn.decodeFailure (strToL "followers_1.json")],
               failed := false } :=
  (C2_aggregator exDecode (fun _ => []) Category.followers
    ⟨strToL "followers_1.json", strToL "bad"⟩ [] (by decide) rfl).2.2

/-- C9 — the merge of per-file identifier sets is order-independent:
permuting the batch leaves the final merged identifier sequence
unchanged. -/
theorem C9_merge_order_independent (d : Txt → Option Json) (dom : Txt → List (Txt × Txt))
    (exp : Category) (fs1 fs2 : List FileRec) (h : List.Perm fs1 fs2) :
    Option.map AggResult.usernames (handleFiles d dom exp fs1)
      = Option.map AggResult.usernames (handleFiles d dom exp fs2) := by
  have hperm : List.Perm (aggLoop d dom exp fs1).1 (aggLoop d dom exp fs2).1 := by
    rw [List.perm_ext_iff_of_nodup (nodup_aggLoop_set d dom exp fs1)
      (nodup_aggLoop_set d dom exp fs2)]
    intro a
    rw [mem_aggLoop_set, mem_aggLoop_set]
    constructor
    · rintro ⟨f, hf, ha⟩
      exact ⟨f, h.mem_iff.mp hf, ha⟩
    · rintro ⟨f, hf, ha⟩
      exact ⟨f, h.mem_iff.mpr hf, ha⟩
  have hsort : sortLex (aggLoop d dom exp fs1).1 = sortLex (aggLoop d dom exp fs2).1 :=
    sortLex_eq_of_perm hperm
  unfold handleFiles
  by_cases h1 : fs1 = []
  · subst h1
    have h2 : fs2 = [] := h.symm.eq_nil
    subst h2
    rfl
  · have h2 : fs2 ≠ [] := fun hh => h1 (List.Perm.eq_nil (hh ▸ h))
    rw [if_neg (fun hh => h1 (isEmpty_true_iff.mp hh)),
      if_neg (fun hh => h2 (isEmpty_true_iff.mp hh))]
    show some (sortLex (aggLoop d dom exp fs1).1) = some (sortLex (aggLoop d dom exp fs2).1)
    rw [hsort]

theorem C9_witness :
    Option.map AggResult.usernames (handleFiles exDecode (fun _ => []) Category.followers
      [⟨strToL "followers_1.json", strToL "bad"⟩, ⟨strToL "followers_2.json", strToL "good"⟩])
    = Option.map AggResult.usernames (handleFiles exDecode (fun _ => []) Category.followers
      [⟨strToL "followers_2.json", strToL "good"⟩, ⟨strToL "followers_1.json", strToL "bad"⟩]) :=
  C9_merge_order_independent exDecode (fun _ => []) Category.followers _ _ (by decide)
